import Mathlib

/-!
Formal model of the trove keyboard-firmware core (matrix scan, debounce,
report assembly, USB dispatch, spinlock), shallowly embedded from the Rust
sources.  Machine integers (u8, u16) are represented as natural numbers;
the 16-bit complement used by the RowState bitset is modelled as xor with
65535, which coincides with the hardware complement on all values below
2 to the 16.  Fallible array indexing is modelled with Option: a result of
none marks an out-of-bounds panic of the source program.
-/

/-- Maximum number of columns in a RowState (source constant MAX_COLS = 16). -/
def MAX_COLS : Nat := 16

/-- Number of matrix rows (source constant ROWS = 4 in key_matrix.rs). -/
def ROWS : Nat := 4

/-- Number of matrix columns (source constant COLS = 12 in key_matrix.rs). -/
def COLS : Nat := 12

/-- Maximum number of keyboard reports returned by a matrix scan
(source constant MAX_KEYBOARD_REPORTS = 8 in usb_context.rs). -/
def MAX_KEYBOARD_REPORTS : Nat := 8

/-- Bit-packed per-column activation state for one matrix row.
The source wraps a u16; the field inner holds that integer value. -/
structure RowState where
  inner : Nat
deriving DecidableEq, Repr

/-- RowState constructor mirroring RowState::new. -/
def RowState.new : RowState := ⟨0⟩

/-- Bitwise and of two RowStates (BitAnd impl in the source). -/
def RowState.land (a b : RowState) : RowState := ⟨a.inner &&& b.inner⟩

/-- Bitwise or of two RowStates (BitOr impl in the source). -/
def RowState.lor (a b : RowState) : RowState := ⟨a.inner ||| b.inner⟩

/-- Bitwise xor of two RowStates (BitXor impl in the source). -/
def RowState.lxor (a b : RowState) : RowState := ⟨a.inner ^^^ b.inner⟩

/-- Bitwise complement of a RowState (Not impl in the source):
u16 complement, i.e. xor with 65535. -/
def RowState.compl (a : RowState) : RowState := ⟨a.inner ^^^ 65535⟩

/-- Column activation getter: source RowState::column reads bit
(index mod MAX_COLS). -/
def RowState.column (a : RowState) (index : Nat) : Bool :=
  a.inner.testBit (index % MAX_COLS)

/-- Column activation setter: source RowState::set_column writes bit
(index mod MAX_COLS). -/
def RowState.set_column (a : RowState) (index : Nat) (val : Bool) : RowState :=
  if val then ⟨a.inner ||| (1 <<< (index % MAX_COLS))⟩
  else ⟨a.inner &&& ((1 <<< (index % MAX_COLS)) ^^^ 65535)⟩

/-- Source RowState::is_active: some column bit is set. -/
def RowState.is_active (a : RowState) : Bool := a.inner != 0

/-- Source RowState::is_inactive: no column bit is set. -/
def RowState.is_inactive (a : RowState) : Bool := a.inner == 0

/-- Debounce state for one row: two counter bit-planes and the last
stable (debounced) row state, as in the source struct Debounce. -/
structure Debounce where
  db0 : RowState
  db1 : RowState
  debounced : RowState
deriving DecidableEq, Repr

/-- Source Debounce::new: all three planes zero. -/
def Debounce.new : Debounce := ⟨RowState.new, RowState.new, RowState.new⟩

/-- Source Debounce::debounce: one debounce step on a sampled row.
Returns the updated state together with the set of bits that just
transitioned to a new stable value (the returned changes row).
Field updates follow the source order: db1 is computed from the old
db0 and db1, db0 from the old db0, and changes from the new counters. -/
def Debounce.debounce (d : Debounce) (sample : RowState) : Debounce × RowState :=
  let delta := sample.lxor d.debounced
  let db1 := (d.db1.lxor d.db0).land delta
  let db0 := d.db0.compl.land delta
  let changes := ((delta.compl.lor db0).lor db1).compl
  (⟨db0, db1, d.debounced.lxor changes⟩, changes)

/-- Iterated debouncing of a sample stream from the all-zero initial
state: debounceRun s n is the Debounce state after consuming samples
s 0 up to s (n-1). -/
def debounceRun (s : Nat → RowState) : Nat → Debounce
  | 0 => Debounce.new
  | n + 1 => ((debounceRun s n) |>.debounce (s n)).1

/-- The changes row returned by the call that consumes sample s n
(the n+1st call of Debounce::debounce). -/
def debounceChanges (s : Nat → RowState) (n : Nat) : RowState :=
  ((debounceRun s n) |>.debounce (s n)).2

/-- Projection of one column of a Debounce state: the three bits of
that column (counter bit 0, counter bit 1, debounced bit). -/
structure BitDeb where
  b0 : Bool
  b1 : Bool
  deb : Bool
deriving DecidableEq, Repr

/-- One debounce step restricted to a single column, with the same
update equations as Debounce.debounce read bitwise. -/
def BitDeb.step (s : BitDeb) (sample : Bool) : BitDeb × Bool :=
  let delta := sample != s.deb
  let b1 := (s.b1 != s.b0) && delta
  let b0 := (!s.b0) && delta
  let changes := delta && !b0 && !b1
  (⟨b0, b1, s.deb != changes⟩, changes)

/-- Column projection of a Debounce state. -/
def Debounce.bit (d : Debounce) (c : Nat) : BitDeb :=
  ⟨d.db0.inner.testBit c, d.db1.inner.testBit c, d.debounced.inner.testBit c⟩

/-- Iterated single-column debouncing from the all-false state. -/
def bitRun (s : Nat → Bool) : Nat → BitDeb
  | 0 => ⟨false, false, false⟩
  | n + 1 => ((bitRun s n) |>.step (s n)).1

theorem testBit_65535 {c : Nat} (hc : c < 16) : Nat.testBit 65535 c = true := by
  have h := Nat.testBit_two_pow_sub_one 16 c
  norm_num at h
  simp [h, hc]

theorem RowState.compl_testBit (a : RowState) {c : Nat} (hc : c < 16) :
    a.compl.inner.testBit c = !a.inner.testBit c := by
  simp [RowState.compl, Nat.testBit_xor, testBit_65535 hc]

/-- Debounce.debounce commutes with the single-column projection. -/
theorem Debounce.debounce_bit (d : Debounce) (sample : RowState) {c : Nat}
    (hc : c < 16) :
    ((d.debounce sample).1.bit c, (d.debounce sample).2.inner.testBit c)
      = (d.bit c).step (sample.inner.testBit c) := by
  simp only [Debounce.debounce, Debounce.bit, BitDeb.step, RowState.land,
    RowState.lor, RowState.lxor]
  simp only [RowState.compl_testBit _ hc, RowState.compl, Nat.testBit_xor,
    Nat.testBit_and, Nat.testBit_or, testBit_65535 hc]
  cases hs : sample.inner.testBit c <;>
    cases h0 : d.db0.inner.testBit c <;>
      cases h1 : d.db1.inner.testBit c <;>
        cases hd : d.debounced.inner.testBit c <;> rfl

/-- Iterated debouncing commutes with the single-column projection. -/
theorem debounceRun_bit (s : Nat → RowState) {c : Nat} (hc : c < 16) (n : Nat) :
    (debounceRun s n).bit c = bitRun (fun k => (s k).inner.testBit c) n := by
  induction n with
  | zero =>
      simp [debounceRun, bitRun, Debounce.new, Debounce.bit, RowState.new]
  | succ n ih =>
      have h := Debounce.debounce_bit (debounceRun s n) (s n) hc
      simp only [debounceRun, bitRun, ← ih]
      exact congrArg Prod.fst h

/-- Column-projected changes agree with the single-column step. -/
theorem debounceChanges_bit (s : Nat → RowState) {c : Nat} (hc : c < 16) (n : Nat) :
    (debounceChanges s n).inner.testBit c
      = ((bitRun (fun k => (s k).inner.testBit c) n).step ((s n).inner.testBit c)).2 := by
  have h := Debounce.debounce_bit (debounceRun s n) (s n) hc
  have h2 := congrArg Prod.snd h
  simp only [debounceChanges, debounceRun_bit s hc n] at h2 ⊢
  exact h2

theorem RowState.column_eq_testBit (a : RowState) {c : Nat} (hc : c < MAX_COLS) :
    a.column c = a.inner.testBit c := by
  simp [RowState.column, Nat.mod_eq_of_lt hc]

/-- Single-column run under alternating samples 0,1,0,1,... : the column
state cycles with period two and its debounced bit never leaves false. -/
theorem bitRun_alternating (s : Nat → Bool) (hs : ∀ k, s k = decide (k % 2 = 1)) :
    ∀ n, bitRun s n
      = if n % 2 = 0 ∧ n ≠ 0 then ⟨true, false, false⟩ else ⟨false, false, false⟩
  | 0 => by simp [bitRun]
  | n + 1 => by
      have ih := bitRun_alternating s hs n
      rcases Nat.mod_two_eq_zero_or_one n with h | h
      · have hsn : s n = false := by simp [hs n, h]
        have h1 : (n + 1) % 2 = 1 := by omega
        rcases Nat.eq_zero_or_pos n with h0 | h0
        · subst h0
          simp [bitRun, ih, hsn, BitDeb.step]
        · have hn0 : n ≠ 0 := by omega
          simp [bitRun, ih, hsn, BitDeb.step, h, hn0, h1]
      · have hsn : s n = true := by simp [hs n, h]
        have h1 : (n + 1) % 2 = 0 := by omega
        have hne : n % 2 ≠ 0 := by omega
        simp [bitRun, ih, hsn, BitDeb.step, hne, h1]

/-- The constant all-ones sample stream. -/
def constOnes : Nat → RowState := fun _ => ⟨65535⟩

theorem debounceRun_constOnes_ge4 :
    ∀ n, debounceRun constOnes (n + 4) = ⟨⟨0⟩, ⟨0⟩, ⟨65535⟩⟩
  | 0 => by decide
  | n + 1 => by
      have ih := debounceRun_constOnes_ge4 n
      have hconst : constOnes (n + 4) = ⟨65535⟩ := rfl
      show (Debounce.debounce (debounceRun constOnes (n + 4)) (constOnes (n + 4))).1
        = ⟨⟨0⟩, ⟨0⟩, ⟨65535⟩⟩
      rw [ih, hconst]
      decide

/-- Closed form of the debounce state under constant all-ones samples:
the per-column counter climbs 1, 2, 3 over the first three calls, and the
fourth call flips every debounced bit and clears the counters. -/
theorem debounceRun_constOnes (n : Nat) :
    debounceRun constOnes n
      = if n = 0 then ⟨⟨0⟩, ⟨0⟩, ⟨0⟩⟩
        else if n = 1 then ⟨⟨65535⟩, ⟨0⟩, ⟨0⟩⟩
        else if n = 2 then ⟨⟨0⟩, ⟨65535⟩, ⟨0⟩⟩
        else if n = 3 then ⟨⟨65535⟩, ⟨65535⟩, ⟨0⟩⟩
        else ⟨⟨0⟩, ⟨0⟩, ⟨65535⟩⟩ := by
  match n with
  | 0 => decide
  | 1 => decide
  | 2 => decide
  | 3 => decide
  | m + 4 =>
      have h := debounceRun_constOnes_ge4 m
      simp [h]

/-- Closed form of the changes row under constant all-ones samples:
only the fourth call reports changes, and it reports all columns. -/
theorem debounceChanges_constOnes (n : Nat) :
    debounceChanges constOnes n = if n = 3 then ⟨65535⟩ else ⟨0⟩ := by
  match n with
  | 0 => decide
  | 1 => decide
  | 2 => decide
  | 3 => decide
  | m + 4 =>
      have hconst : constOnes (m + 4) = ⟨65535⟩ := rfl
      show (Debounce.debounce (debounceRun constOnes (m + 4)) (constOnes (m + 4))).2
        = if m + 4 = 3 then ⟨65535⟩ else ⟨0⟩
      rw [debounceRun_constOnes_ge4 m, hconst, if_neg (by omega)]
      decide

/-- C1: for every column, feeding alternating samples 0,1,0,1,... from the
all-zero initial state never flips the debounced bit of that column, while
feeding a constant all-ones sample flips the debounced bit exactly once
(namely at the fourth call), after which further constant-ones calls leave
the debounced row unchanged and return an all-zero changes row. -/
theorem debounce_alternating_never_flips_sustained_flips_once
    (c : Nat) (hc : c < MAX_COLS)
    (s : Nat → RowState)
    (hs : ∀ k, (s k).column c = decide (k % 2 = 1)) :
    (∀ n, (debounceRun s n).debounced.column c = false)
    ∧ (∀ n, (debounceRun constOnes n).debounced.column c = decide (4 ≤ n))
    ∧ (∀ n, (debounceChanges constOnes n).column c = decide (n = 3))
    ∧ (∀ n, 4 ≤ n → debounceChanges constOnes n = ⟨0⟩) := by
  have hc16 : c < 16 := hc
  have hbits : ∀ k, (s k).inner.testBit c = decide (k % 2 = 1) := by
    intro k
    rw [← RowState.column_eq_testBit _ hc]
    exact hs k
  refine ⟨?_, ?_, ?_, ?_⟩
  · intro n
    rw [RowState.column_eq_testBit _ hc]
    have h := congrArg BitDeb.deb (debounceRun_bit s hc16 n)
    simp only [Debounce.bit] at h
    rw [h, bitRun_alternating _ hbits n]
    split <;> rfl
  · intro n
    rw [debounceRun_constOnes n]
    rcases n with _ | _ | _ | _ | m <;>
      simp [RowState.column, Nat.mod_eq_of_lt hc, testBit_65535 hc16]
  · intro n
    rw [debounceChanges_constOnes n]
    rcases n with _ | _ | _ | _ | m <;>
      simp [RowState.column, Nat.mod_eq_of_lt hc, testBit_65535 hc16]
  · intro n hn
    rw [debounceChanges_constOnes n, if_neg (by omega)]

/-- Witness for C1 at column 0: the alternating stream with all columns
toggling, evaluated after 7 samples, and the constant-ones stream
evaluated after 5 samples. -/
theorem debounce_alternating_witness :
    (debounceRun (fun k => ⟨if k % 2 = 1 then 65535 else 0⟩) 7).debounced.column 0 = false
    ∧ (debounceRun constOnes 5).debounced.column 0 = decide (4 ≤ 5) := by
  have h := debounce_alternating_never_flips_sustained_flips_once 0 (by decide)
    (fun k => ⟨if k % 2 = 1 then 65535 else 0⟩)
    (fun k => by
      rcases Nat.mod_two_eq_zero_or_one k with hk | hk <;>
        simp [RowState.column, hk])
  exact ⟨h.1 7, h.2.1 5⟩

/-- C2: under sustained disagreement (constant all-ones samples from the
all-zero state) a column counter climbs through 1, 2 and saturates at 3
across the first three calls while the debounced bit stays put, and the
fourth call flips the bit; in full generality, any call that flips a
column bit starts from a saturated counter of that column and leaves both
counter bits of that column cleared. -/
theorem debounce_counter_saturates_and_resets
    (c : Nat) (hc : c < MAX_COLS) :
    ((debounceRun constOnes 1).db0.column c = true
      ∧ (debounceRun constOnes 1).db1.column c = false)
    ∧ ((debounceRun constOnes 2).db0.column c = false
      ∧ (debounceRun constOnes 2).db1.column c = true)
    ∧ ((debounceRun constOnes 3).db0.column c = true
      ∧ (debounceRun constOnes 3).db1.column c = true)
    ∧ (∀ n, n ≤ 3 → (debounceRun constOnes n).debounced.column c = false)
    ∧ (debounceChanges constOnes 3).column c = true
    ∧ (∀ (d : Debounce) (sample : RowState),
        (d.debounce sample).2.column c = true →
          d.db0.column c = true ∧ d.db1.column c = true
          ∧ (d.debounce sample).1.db0.column c = false
          ∧ (d.debounce sample).1.db1.column c = false) := by
  have hc16 : c < 16 := hc
  have hcol : ∀ a : RowState, a.column c = a.inner.testBit c :=
    fun a => RowState.column_eq_testBit a hc
  refine ⟨?_, ?_, ?_, ?_, ?_, ?_⟩
  · rw [debounceRun_constOnes 1]
    simp [hcol, testBit_65535 hc16]
  · rw [debounceRun_constOnes 2]
    simp [hcol, testBit_65535 hc16]
  · rw [debounceRun_constOnes 3]
    simp [hcol, testBit_65535 hc16]
  · intro n hn
    rw [debounceRun_constOnes n]
    interval_cases n <;> simp [hcol]
  · rw [debounceChanges_constOnes 3]
    simp [hcol, testBit_65535 hc16]
  · intro d sample hchg
    have hb := Debounce.debounce_bit d sample hc16
    have hfst := congrArg Prod.fst hb
    have hsnd := congrArg Prod.snd hb
    simp only at hfst hsnd
    have hbool : ∀ (x y z b : Bool), ((BitDeb.mk x y z).step b).2 = true →
        x = true ∧ y = true
        ∧ ((BitDeb.mk x y z).step b).1.b0 = false
        ∧ ((BitDeb.mk x y z).step b).1.b1 = false := by decide
    rw [hcol] at hchg
    rw [hsnd] at hchg
    have h := hbool (d.bit c).b0 (d.bit c).b1 (d.bit c).deb
      (sample.inner.testBit c) hchg
    refine ⟨?_, ?_, ?_, ?_⟩
    · rw [hcol]
      exact h.1
    · rw [hcol]
      exact h.2.1
    · rw [hcol]
      have := congrArg BitDeb.b0 hfst
      simp only [Debounce.bit] at this
      rw [this]
      exact h.2.2.1
    · rw [hcol]
      have := congrArg BitDeb.b1 hfst
      simp only [Debounce.bit] at this
      rw [this]
      exact h.2.2.2

/-- Witness for C2 at column 0, with the general reset clause applied to
the saturated one-column state. -/
theorem debounce_counter_witness :
    (debounceRun constOnes 3).db0.column 0 = true
    ∧ ((Debounce.debounce ⟨⟨1⟩, ⟨1⟩, ⟨0⟩⟩ ⟨1⟩).1.db0.column 0 = false
      ∧ (Debounce.debounce ⟨⟨1⟩, ⟨1⟩, ⟨0⟩⟩ ⟨1⟩).1.db1.column 0 = false) := by
  have h := debounce_counter_saturates_and_resets 0 (by decide)
  have h6 := h.2.2.2.2.2 ⟨⟨1⟩, ⟨1⟩, ⟨0⟩⟩ ⟨1⟩ (by decide)
  exact ⟨h.2.2.1.1, h6.2.2.1, h6.2.2.2⟩

/-- Source key_is_modifier in key_defs.rs: a keycode is a modifier iff it
lies between KeyboardLeftControl (224) and KeyboardRightGUI (231). -/
def key_is_modifier (key : Nat) : Bool := 224 ≤ key && key ≤ 231

/-- Source key_to_modifier in key_defs.rs: the u8 value 1 shifted left by
(key - 224). The source only applies it to modifier keycodes, for which
the result is below 256; the mod keeps the model total on u8 range. -/
def key_to_modifier (key : Nat) : Nat := (1 <<< (key - 224)) % 256

/-- Source COL_KEYS in key_defs.rs: the Atreus key layout by column, each
inner list indexed by row. Values are the u8 HID usages of the named
usbd-hid enum variants (KeyboardQq = 20, ..., SystemFunctionShift = 151). -/
def COL_KEYS : List (List Nat) :=
  [[20, 4, 29, 41],
   [26, 22, 27, 43],
   [8, 7, 6, 227],
   [21, 9, 25, 225],
   [23, 10, 5, 42],
   [0, 0, 53, 44],
   [0, 0, 49, 230],
   [28, 11, 17, 228],
   [24, 13, 16, 151],
   [12, 14, 54, 45],
   [18, 15, 55, 52],
   [19, 51, 56, 40]]

/-- The keymap lookup COL_KEYS[col][row] of the source. -/
def keyAt (col row : Nat) : Nat := (COL_KEYS.getD col []).getD row 0

/-- HID keyboard report: modifier bitmask byte, reserved byte, LED byte
and six keycode slots (usbd-hid KeyboardReport). -/
structure KeyboardReport where
  modifier : Nat
  reserved : Nat
  leds : Nat
  keycodes : List Nat
deriving DecidableEq, Repr

/-- Source BLANK_REPORT: all bytes zero. -/
def BLANK_REPORT : KeyboardReport := ⟨0, 0, 0, [0, 0, 0, 0, 0, 0]⟩

/-- Per-row aggregate of the scanner: previous and current snapshots and
the row's debouncer, as in the source struct DebounceRowState. -/
structure DebounceRowState where
  previous : RowState
  current : RowState
  debouncer : Debounce
deriving DecidableEq, Repr

/-- Source DebounceRowState::new: everything zeroed. -/
def DebounceRowState.new : DebounceRowState :=
  ⟨RowState.new, RowState.new, Debounce.new⟩

/-- The row loop of KeyScanner::read_matrix: feed each row its sampled
hot-pin RowState in row order, update that row's debouncer, and or the
returned changes row into the accumulator any_debounced_changes. -/
def readMatrixLoop (samples : Nat → RowState) :
    List DebounceRowState → Nat → RowState → List DebounceRowState × RowState
  | [], _, acc => ([], acc)
  | st :: rest, i, acc =>
      let r := st.debouncer.debounce (samples i)
      let acc2 : RowState := ⟨acc.inner ||| r.2.inner⟩
      let t := readMatrixLoop samples rest (i + 1) acc2
      ({ st with debouncer := r.1 } :: t.1, t.2)

/-- The accumulated any_debounced_changes value of one read_matrix call. -/
def anyDebouncedChanges (samples : Nat → RowState) (ms : List DebounceRowState) :
    RowState :=
  (readMatrixLoop samples ms 0 RowState.new).2

/-- Source KeyScanner::read_matrix, with the electrical sampling of the
hot pins supplied as a function from row index to the sampled RowState.
After the row loop, if the accumulated changes row is active, every row
copies its debounced value into its current snapshot. -/
def read_matrix (samples : Nat → RowState) (ms : List DebounceRowState) :
    List DebounceRowState :=
  let t := readMatrixLoop samples ms 0 RowState.new
  if t.2.is_active then
    t.1.map (fun st => { st with current := st.debouncer.debounced })
  else t.1

/-- Accumulator of KeyScanner::matrix_scan_reports: the report array under
construction, the index of the report being filled, and the number of
keycodes already placed in that report. -/
structure ReportAccum where
  reports : List KeyboardReport
  report_idx : Nat
  keycodes : Nat
deriving DecidableEq, Repr

/-- The body of the active-column branch of matrix_scan_reports: a
modifier key ors its mask into the modifier byte of reports[report_idx];
any other key is written into keycode slot keycodes of that report and
keycodes is incremented. Indexing past the reports array (or past the six
keycode slots) is an out-of-bounds panic in the source, modelled as none.
Afterwards, if keycodes has reached 6, assembly advances to the next
report slot and keycodes resets to 0. -/
def reportKeyStep (acc : ReportAccum) (key : Nat) : Option ReportAccum :=
  let pushed : Option ReportAccum :=
    if key_is_modifier key then
      match acc.reports.get? acc.report_idx with
      | none => none
      | some rep =>
          some { acc with
            reports := acc.reports.set acc.report_idx
              { rep with modifier := rep.modifier ||| key_to_modifier key } }
    else
      match acc.reports.get? acc.report_idx with
      | none => none
      | some rep =>
          if acc.keycodes < 6 then
            some { acc with
              reports := acc.reports.set acc.report_idx
                { rep with keycodes := rep.keycodes.set acc.keycodes key },
              keycodes := acc.keycodes + 1 }
          else none
  match pushed with
  | none => none
  | some a =>
      if 6 ≤ a.keycodes then
        some { a with report_idx := a.report_idx + 1, keycodes := 0 }
      else some a

/-- Folding reportKeyStep over a list of keycodes. -/
def buildReports : List Nat → ReportAccum → Option ReportAccum
  | [], acc => some acc
  | k :: ks, acc =>
      match reportKeyStep acc k with
      | none => none
      | some a => buildReports ks a

/-- The inner column loop of matrix_scan_reports for one row: visit the
columns in order and record the key of every column active in the
previous or current snapshot. -/
def scanRowCols (prev cur : RowState) (row : Nat) :
    List Nat → ReportAccum → Option ReportAccum
  | [], acc => some acc
  | c :: cs, acc =>
      if prev.column c || cur.column c then
        match reportKeyStep acc (keyAt c row) with
        | none => none
        | some a => scanRowCols prev cur row cs a
      else scanRowCols prev cur row cs acc

/-- The outer row loop of matrix_scan_reports: process each row's columns
and then commit that row's previous snapshot to its current snapshot. -/
def scanRowsAux :
    List DebounceRowState → Nat → ReportAccum →
      Option (ReportAccum × List DebounceRowState)
  | [], _, acc => some (acc, [])
  | st :: rest, row, acc =>
      match scanRowCols st.previous st.current row (List.range COLS) acc with
      | none => none
      | some a =>
          match scanRowsAux rest (row + 1) a with
          | none => none
          | some t => some (t.1, { st with previous := st.current } :: t.2)

/-- Source KeyScanner::matrix_scan_reports with N report slots: returns
the assembled reports and the updated matrix state, or none where the
source would panic on an out-of-bounds report index. -/
def matrix_scan_reports (N : Nat) (ms : List DebounceRowState) :
    Option (List KeyboardReport × List DebounceRowState) :=
  match scanRowsAux ms 0 ⟨List.replicate N BLANK_REPORT, 0, 0⟩ with
  | none => none
  | some t => some (t.1.reports, t.2)

/-- The keymap entries of the active columns of one row, in column order. -/
def rowActiveKeys (prev cur : RowState) (row : Nat) : List Nat :=
  ((List.range COLS).filter (fun c => prev.column c || cur.column c)).map
    (fun c => keyAt c row)

/-- The keymap entries of all active positions in row-major visit order. -/
def activeKeys : List DebounceRowState → Nat → List Nat
  | [], _ => []
  | st :: rest, row =>
      rowActiveKeys st.previous st.current row ++ activeKeys rest (row + 1)

/-- Active keys of a matrix state, rows numbered from 0. -/
def activeKeysOf (ms : List DebounceRowState) : List Nat := activeKeys ms 0

theorem buildReports_append (l1 l2 : List Nat) (acc : ReportAccum) :
    buildReports (l1 ++ l2) acc
      = match buildReports l1 acc with
        | none => none
        | some a => buildReports l2 a := by
  induction l1 generalizing acc with
  | nil => simp [buildReports]
  | cons k ks ih =>
      simp only [List.cons_append, buildReports]
      cases reportKeyStep acc k with
      | none => rfl
      | some a => exact ih a

theorem scanRowCols_eq (prev cur : RowState) (row : Nat) (cs : List Nat)
    (acc : ReportAccum) :
    scanRowCols prev cur row cs acc
      = buildReports
          ((cs.filter (fun c => prev.column c || cur.column c)).map
            (fun c => keyAt c row)) acc := by
  induction cs generalizing acc with
  | nil => simp [scanRowCols, buildReports]
  | cons c cs ih =>
      simp only [scanRowCols, List.filter_cons]
      cases h : (prev.column c || cur.column c) with
      | false => simp [h, ih]
      | true =>
          simp only [h, if_true, List.map_cons, buildReports]
          cases reportKeyStep acc (keyAt c row) with
          | none => rfl
          | some a => exact ih a

theorem scanRowsAux_eq (ms : List DebounceRowState) (row : Nat)
    (acc : ReportAccum) :
    scanRowsAux ms row acc
      = (buildReports (activeKeys ms row) acc).map
          (fun a => (a, ms.map (fun st => { st with previous := st.current }))) := by
  induction ms generalizing row acc with
  | nil => simp [scanRowsAux, activeKeys, buildReports]
  | cons st rest ih =>
      simp only [scanRowsAux, activeKeys, rowActiveKeys, buildReports_append,
        scanRowCols_eq st.previous st.current row (List.range COLS) acc]
      cases h : buildReports
          (((List.range COLS).filter
              (fun c => st.previous.column c || st.current.column c)).map
            (fun c => keyAt c row)) acc with
      | none => rfl
      | some a =>
          dsimp only
          rw [ih (row + 1) a]
          cases buildReports (activeKeys rest (row + 1)) a with
          | none => rfl
          | some b => rfl

/-- matrix_scan_reports is the fold of reportKeyStep over the active keys
in row-major order, together with the per-row previous := current commit. -/
theorem matrix_scan_reports_eq (N : Nat) (ms : List DebounceRowState) :
    matrix_scan_reports N ms
      = (buildReports (activeKeysOf ms) ⟨List.replicate N BLANK_REPORT, 0, 0⟩).map
          (fun a => (a.reports, ms.map (fun st => { st with previous := st.current }))) := by
  simp only [matrix_scan_reports, scanRowsAux_eq ms 0 _, activeKeysOf]
  cases buildReports (activeKeys ms 0) ⟨List.replicate N BLANK_REPORT, 0, 0⟩ with
  | none => rfl
  | some a => rfl

/-- C3: if exactly seven positions are active (in previous or current) and
all seven keymap entries are non-modifier keycodes, matrix_scan_reports
with the shipped eight report slots puts the first six keycodes, in
row-major visit order, into report slot 0 with modifier byte 0, puts the
seventh keycode as the sole entry of report slot 1, and leaves every
unused keycode slot of both reports at the sentinel 0. -/
theorem seven_nonmodifier_keys_split_across_two_reports
    (ms : List DebounceRowState) (k1 k2 k3 k4 k5 k6 k7 : Nat)
    (hact : activeKeysOf ms = [k1, k2, k3, k4, k5, k6, k7])
    (hnm : ∀ k ∈ activeKeysOf ms, key_is_modifier k = false) :
    matrix_scan_reports 8 ms
      = some (⟨0, 0, 0, [k1, k2, k3, k4, k5, k6]⟩
                :: ⟨0, 0, 0, [k7, 0, 0, 0, 0, 0]⟩
                :: List.replicate 6 BLANK_REPORT,
              ms.map (fun st => { st with previous := st.current })) := by
  rw [hact] at hnm
  have h1 : key_is_modifier k1 = false := hnm k1 (by simp)
  have h2 : key_is_modifier k2 = false := hnm k2 (by simp)
  have h3 : key_is_modifier k3 = false := hnm k3 (by simp)
  have h4 : key_is_modifier k4 = false := hnm k4 (by simp)
  have h5 : key_is_modifier k5 = false := hnm k5 (by simp)
  have h6 : key_is_modifier k6 = false := hnm k6 (by simp)
  have h7 : key_is_modifier k7 = false := hnm k7 (by simp)
  rw [matrix_scan_reports_eq, hact]
  simp [buildReports, reportKeyStep, h1, h2, h3, h4, h5, h6, h7,
    List.replicate, BLANK_REPORT]

/-- Witness for C3: row 0 with columns 0,1,2,3,4,7,8 active in the
current snapshot (inner value 415), giving the seven letter keycodes
20, 26, 8, 21, 23, 28, 24. -/
theorem seven_nonmodifier_keys_witness :
    matrix_scan_reports 8
        [⟨⟨0⟩, ⟨415⟩, Debounce.new⟩, DebounceRowState.new,
         DebounceRowState.new, DebounceRowState.new]
      = some (⟨0, 0, 0, [20, 26, 8, 21, 23, 28]⟩
                :: ⟨0, 0, 0, [24, 0, 0, 0, 0, 0]⟩
                :: List.replicate 6 BLANK_REPORT,
              [⟨⟨0⟩, ⟨415⟩, Debounce.new⟩, DebounceRowState.new,
               DebounceRowState.new, DebounceRowState.new].map
                (fun st => { st with previous := st.current })) := by
  exact seven_nonmodifier_keys_split_across_two_reports _
    20 26 8 21 23 28 24 (by decide) (by decide)

/-- C7: if the active positions map to one modifier key and five normal
keys (the modifier visited at position j of the row-major visit order),
matrix_scan_reports ors the modifier's bitmask into the modifier byte of
the report slot current at that moment (slot 0, since at most five
keycodes are placed), and the modifier consumes no keycode slot: the five
normal keycodes, in visit order, and the sentinel 0 fill the six slots. -/
theorem modifier_does_not_consume_keycode_slot
    (ms : List DebounceRowState) (m n1 n2 n3 n4 n5 j : Nat) (hj : j ≤ 5)
    (hact : activeKeysOf ms
      = ([n1, n2, n3, n4, n5].take j) ++ m :: ([n1, n2, n3, n4, n5].drop j))
    (hm : key_is_modifier m = true)
    (hn : ∀ k ∈ [n1, n2, n3, n4, n5], key_is_modifier k = false) :
    matrix_scan_reports 8 ms
      = some (⟨key_to_modifier m, 0, 0, [n1, n2, n3, n4, n5, 0]⟩
                :: List.replicate 7 BLANK_REPORT,
              ms.map (fun st => { st with previous := st.current })) := by
  have h1 : key_is_modifier n1 = false := hn n1 (by simp)
  have h2 : key_is_modifier n2 = false := hn n2 (by simp)
  have h3 : key_is_modifier n3 = false := hn n3 (by simp)
  have h4 : key_is_modifier n4 = false := hn n4 (by simp)
  have h5 : key_is_modifier n5 = false := hn n5 (by simp)
  rw [matrix_scan_reports_eq, hact]
  interval_cases j <;>
    simp [buildReports, reportKeyStep, h1, h2, h3, h4, h5, hm,
      List.replicate, BLANK_REPORT]

/-- Witness for C7: five letter keys of row 0 (columns 0 through 4) plus
the LeftGUI modifier at row 3, column 2; the modifier is visited last
(j = 5) and sets modifier bit 8. -/
theorem modifier_witness :
    matrix_scan_reports 8
        [⟨⟨0⟩, ⟨31⟩, Debounce.new⟩, DebounceRowState.new,
         DebounceRowState.new, ⟨⟨4⟩, ⟨0⟩, Debounce.new⟩]
      = some (⟨key_to_modifier 227, 0, 0, [20, 26, 8, 21, 23, 0]⟩
                :: List.replicate 7 BLANK_REPORT,
              [⟨⟨0⟩, ⟨31⟩, Debounce.new⟩, DebounceRowState.new,
               DebounceRowState.new, ⟨⟨4⟩, ⟨0⟩, Debounce.new⟩].map
                (fun st => { st with previous := st.current })) := by
  exact modifier_does_not_consume_keycode_slot _
    227 20 26 8 21 23 5 (by decide) (by decide) (by decide) (by decide)

/-- Number of non-modifier keycodes in a key list: each of these consumes
one keycode slot during report assembly. -/
def nonModCount (ks : List Nat) : Nat :=
  ks.countP (fun k => !key_is_modifier k)

theorem nonModCount_nil : nonModCount [] = 0 := rfl

theorem nonModCount_append (l1 l2 : List Nat) :
    nonModCount (l1 ++ l2) = nonModCount l1 + nonModCount l2 := by
  simp [nonModCount, List.countP_append]

/-- Report assembly cannot reach an out-of-bounds report index as long as
the keycode slots strictly exceed the keycodes still to be placed. -/
theorem buildReports_total (ks : List Nat) :
    ∀ acc : ReportAccum, acc.keycodes ≤ 5 →
      6 * acc.report_idx + acc.keycodes + nonModCount ks
        < 6 * acc.reports.length →
      ∃ a, buildReports ks acc = some a := by
  induction ks with
  | nil =>
      intro acc h5 hb
      exact ⟨acc, rfl⟩
  | cons k ks ih =>
      intro acc h5 hb
      have hnm : nonModCount (k :: ks)
          = nonModCount ks + if !key_is_modifier k then 1 else 0 := by
        simp [nonModCount, List.countP_cons]
      have hidx : acc.report_idx < acc.reports.length := by
        rcases hb with _
        by_contra hge
        push_neg at hge
        have : 6 * acc.reports.length ≤ 6 * acc.report_idx := by omega
        omega
      obtain ⟨rep, hrep⟩ : ∃ rep, acc.reports.get? acc.report_idx = some rep :=
        ⟨_, List.get?_eq_get hidx⟩
      by_cases hk : key_is_modifier k
      · have hkc : ¬ (6 ≤ acc.keycodes) := by omega
        simp only [buildReports, reportKeyStep, hk, if_true, hrep, hkc, if_false]
        apply ih
        · exact h5
        · simp only [List.length_set]
          simp [hnm, hk] at hb
          omega
      · have hk6 : acc.keycodes < 6 := by omega
        have hkf : key_is_modifier k = false := by
          cases h : key_is_modifier k
          · rfl
          · exact absurd h hk
        simp only [buildReports, reportKeyStep, hkf, Bool.false_eq_true,
          if_false, hrep, hk6, if_true]
        rcases Nat.lt_or_ge (acc.keycodes + 1) 6 with hlt | hge
        · rw [if_neg (show ¬ 6 ≤ acc.keycodes + 1 by omega)]
          dsimp only
          apply ih
          · show acc.keycodes + 1 ≤ 5
            omega
          · simp only [List.length_set]
            simp [hnm, hkf] at hb
            omega
        · rw [if_pos (show 6 ≤ acc.keycodes + 1 from hge)]
          dsimp only
          apply ih
          · show (0 : Nat) ≤ 5
            omega
          · simp only [List.length_set]
            simp [hnm, hkf] at hb
            omega

/-- The active keys of one row are a selection of that row's keymap
entries, so their non-modifier count is bounded by the row total. -/
theorem nonModCount_row_le (prev cur : RowState) (row : Nat) :
    nonModCount (rowActiveKeys prev cur row)
      ≤ nonModCount ((List.range COLS).map (fun c => keyAt c row)) := by
  unfold nonModCount rowActiveKeys
  exact List.Sublist.countP_le _
    (List.Sublist.map _ (List.filter_sublist _))

/-- The full four-row matrix exposes at most 44 non-modifier keymap
entries (48 positions, four of which are modifiers). -/
theorem nonModCount_active_le (ms : List DebounceRowState)
    (hlen : ms.length = 4) :
    nonModCount (activeKeysOf ms) ≤ 44 := by
  rcases ms with _ | ⟨s0, ms⟩
  · exact absurd hlen (by simp)
  rcases ms with _ | ⟨s1, ms⟩
  · exact absurd hlen (by simp)
  rcases ms with _ | ⟨s2, ms⟩
  · exact absurd hlen (by simp)
  rcases ms with _ | ⟨s3, ms⟩
  · exact absurd hlen (by simp)
  rcases ms with _ | ⟨s4, ms⟩
  · have h0 := nonModCount_row_le s0.previous s0.current 0
    have h1 := nonModCount_row_le s1.previous s1.current 1
    have h2 := nonModCount_row_le s2.previous s2.current 2
    have h3 := nonModCount_row_le s3.previous s3.current 3
    have c0 : nonModCount ((List.range COLS).map (fun c => keyAt c 0)) = 12 := by
      decide
    have c1 : nonModCount ((List.range COLS).map (fun c => keyAt c 1)) = 12 := by
      decide
    have c2 : nonModCount ((List.range COLS).map (fun c => keyAt c 2)) = 12 := by
      decide
    have c3 : nonModCount ((List.range COLS).map (fun c => keyAt c 3)) = 8 := by
      decide
    have hsplit : activeKeysOf [s0, s1, s2, s3]
        = rowActiveKeys s0.previous s0.current 0
          ++ (rowActiveKeys s1.previous s1.current 1
          ++ (rowActiveKeys s2.previous s2.current 2
          ++ (rowActiveKeys s3.previous s3.current 3 ++ []))) := rfl
    rw [hsplit, nonModCount_append, nonModCount_append, nonModCount_append,
      nonModCount_append, nonModCount_nil]
    omega
  · exact absurd hlen (by simp)

/-- C4 (amended): at the shipped instantiation (four rows, twelve columns,
eight report slots) report assembly can never run out of report slots,
because the keymap exposes at most 44 non-modifier entries and
44 < 6 * 8; so no overflow, dropping or panic is reachable there. For a
report array too small for the active keys the source does not silently
drop the excess: it indexes past the array and panics (see the
counterexample theorem for one report slot). -/
theorem matrix_scan_reports_total_at_shipped_size
    (ms : List DebounceRowState) (hlen : ms.length = ROWS) :
    ∃ r, matrix_scan_reports MAX_KEYBOARD_REPORTS ms = some r := by
  have hb : nonModCount (activeKeysOf ms) ≤ 44 := nonModCount_active_le ms hlen
  have htot := buildReports_total (activeKeysOf ms)
    ⟨List.replicate MAX_KEYBOARD_REPORTS BLANK_REPORT, 0, 0⟩
    (by show (0 : Nat) ≤ 5; omega)
    (by
      show 6 * 0 + 0 + nonModCount (activeKeysOf ms)
        < 6 * (List.replicate MAX_KEYBOARD_REPORTS BLANK_REPORT).length
      rw [List.length_replicate]
      show 6 * 0 + 0 + nonModCount (activeKeysOf ms) < 6 * 8
      omega)
  obtain ⟨a, ha⟩ := htot
  refine ⟨(a.reports, ms.map (fun st => { st with previous := st.current })), ?_⟩
  rw [matrix_scan_reports_eq, ha]
  rfl

/-- C4 counterexample: with a single report slot and seven active
non-modifier keys the source panics on an out-of-bounds report index
(modelled as none) instead of returning reports with the excess keys
silently dropped. -/
theorem matrix_scan_reports_overflow_panics :
    matrix_scan_reports 1
        [⟨⟨0⟩, ⟨415⟩, Debounce.new⟩, DebounceRowState.new,
         DebounceRowState.new, DebounceRowState.new] = none := by
  decide

/-- Witness for the amended C4 theorem at a concrete matrix state. -/
theorem matrix_scan_reports_total_witness :
    ∃ r, matrix_scan_reports MAX_KEYBOARD_REPORTS
        [⟨⟨0⟩, ⟨415⟩, Debounce.new⟩, DebounceRowState.new,
         DebounceRowState.new, DebounceRowState.new] = some r :=
  matrix_scan_reports_total_at_shipped_size
    [⟨⟨0⟩, ⟨415⟩, Debounce.new⟩, DebounceRowState.new,
     DebounceRowState.new, DebounceRowState.new] (by decide)

theorem readMatrixLoop_getD (samples : Nat → RowState) :
    ∀ (ms : List DebounceRowState) (i : Nat) (acc : RowState) (j : Nat),
      (((readMatrixLoop samples ms i acc).1.getD j DebounceRowState.new).previous
          = (ms.getD j DebounceRowState.new).previous)
      ∧ (((readMatrixLoop samples ms i acc).1.getD j DebounceRowState.new).current
          = (ms.getD j DebounceRowState.new).current)
  | [], i, acc, j => by simp [readMatrixLoop]
  | st :: rest, i, acc, j => by
      cases j with
      | zero => simp [readMatrixLoop]
      | succ j =>
          have ih := readMatrixLoop_getD samples rest (i + 1)
            ⟨acc.inner ||| (st.debouncer.debounce (samples i)).2.inner⟩ j
          simpa [readMatrixLoop] using ih

theorem commit_map_getD :
    ∀ (l : List DebounceRowState) (j : Nat),
      (((l.map (fun st => { st with current := st.debouncer.debounced })).getD j
          DebounceRowState.new).current
        = ((l.map (fun st => { st with current := st.debouncer.debounced })).getD j
            DebounceRowState.new).debouncer.debounced)
  | [], j => by simp [DebounceRowState.new, Debounce.new, RowState.new]
  | st :: rest, 0 => by simp
  | st :: rest, j + 1 => by simpa using commit_map_getD rest j

/-- C6: after KeyScanner::read_matrix processes all rows, if the
or-accumulated changes row is active then every row's current snapshot
equals that row's (updated) debounced value, and if it is inactive then
no row's current snapshot is modified. -/
theorem read_matrix_snapshot_commit (samples : Nat → RowState)
    (ms : List DebounceRowState) :
    ((anyDebouncedChanges samples ms).is_active = true →
      ∀ j, ((read_matrix samples ms).getD j DebounceRowState.new).current
        = ((read_matrix samples ms).getD j DebounceRowState.new).debouncer.debounced)
    ∧ ((anyDebouncedChanges samples ms).is_active = false →
      ∀ j, ((read_matrix samples ms).getD j DebounceRowState.new).current
        = (ms.getD j DebounceRowState.new).current) := by
  constructor
  · intro hact j
    have hact2 : (readMatrixLoop samples ms 0 RowState.new).2.is_active = true :=
      hact
    have hr : read_matrix samples ms
        = (readMatrixLoop samples ms 0 RowState.new).1.map
            (fun st => { st with current := st.debouncer.debounced }) := by
      simp [read_matrix, hact2]
    rw [hr]
    exact commit_map_getD _ j
  · intro hact j
    have hact2 : (readMatrixLoop samples ms 0 RowState.new).2.is_active = false :=
      hact
    have hr : read_matrix samples ms
        = (readMatrixLoop samples ms 0 RowState.new).1 := by
      simp [read_matrix, hact2]
    rw [hr]
    exact (readMatrixLoop_getD samples ms 0 RowState.new j).2

/-- Witness for C6: a saturated row-0 debouncer driven by a constant
all-ones sample gives an active changes row and commits the snapshot,
while the all-zero state under all-zero samples commits nothing. -/
theorem read_matrix_snapshot_commit_witness :
    ((anyDebouncedChanges (fun _ => ⟨1⟩)
        [⟨⟨0⟩, ⟨0⟩, ⟨⟨1⟩, ⟨1⟩, ⟨0⟩⟩⟩, DebounceRowState.new,
         DebounceRowState.new, DebounceRowState.new]).is_active = true
      ∧ ((read_matrix (fun _ => ⟨1⟩)
            [⟨⟨0⟩, ⟨0⟩, ⟨⟨1⟩, ⟨1⟩, ⟨0⟩⟩⟩, DebounceRowState.new,
             DebounceRowState.new, DebounceRowState.new]).getD 0
          DebounceRowState.new).current
        = ((read_matrix (fun _ => ⟨1⟩)
            [⟨⟨0⟩, ⟨0⟩, ⟨⟨1⟩, ⟨1⟩, ⟨0⟩⟩⟩, DebounceRowState.new,
             DebounceRowState.new, DebounceRowState.new]).getD 0
          DebounceRowState.new).debouncer.debounced)
    ∧ ((anyDebouncedChanges (fun _ => ⟨0⟩)
        (List.replicate 4 DebounceRowState.new)).is_active = false
      ∧ ((read_matrix (fun _ => ⟨0⟩)
            (List.replicate 4 DebounceRowState.new)).getD 2
          DebounceRowState.new).current
        = ((List.replicate 4 DebounceRowState.new).getD 2
            DebounceRowState.new).current) := by
  refine ⟨⟨by decide, ?_⟩, ⟨by decide, ?_⟩⟩
  · exact (read_matrix_snapshot_commit (fun _ => ⟨1⟩) _).1 (by decide) 0
  · exact (read_matrix_snapshot_commit (fun _ => ⟨0⟩) _).2 (by decide) 2

theorem lor_eq_zero {a b : Nat} (h : a ||| b = 0) : a = 0 ∧ b = 0 := by
  constructor
  · apply Nat.eq_of_testBit_eq
    intro i
    have hbit := congrArg (fun x => Nat.testBit x i) h
    simp [Nat.testBit_or] at hbit
    simp [hbit.1]
  · apply Nat.eq_of_testBit_eq
    intro i
    have hbit := congrArg (fun x => Nat.testBit x i) h
    simp [Nat.testBit_or] at hbit
    simp [hbit.2]

theorem RowState.lxor_zero (a : RowState) : a.lxor ⟨0⟩ = a := by
  cases a with
  | mk x => simp [RowState.lxor]

theorem Debounce.debounce_debounced (d : Debounce) (s : RowState) :
    (d.debounce s).1.debounced = d.debounced.lxor (d.debounce s).2 := rfl

theorem readMatrixLoop_length (samples : Nat → RowState) :
    ∀ (ms : List DebounceRowState) (i : Nat) (acc : RowState),
      ((readMatrixLoop samples ms i acc).1).length = ms.length
  | [], _, _ => rfl
  | st :: rest, i, acc => by
      simpa [readMatrixLoop] using
        readMatrixLoop_length samples rest (i + 1)
          ⟨acc.inner ||| (st.debouncer.debounce (samples i)).2.inner⟩

theorem readMatrixLoop_debouncer (samples : Nat → RowState) :
    ∀ (ms : List DebounceRowState) (i : Nat) (acc : RowState) (j : Nat),
      j < ms.length →
      ((readMatrixLoop samples ms i acc).1.getD j DebounceRowState.new).debouncer
        = ((ms.getD j DebounceRowState.new).debouncer.debounce (samples (i + j))).1
  | st :: rest, i, acc, 0, h => by simp [readMatrixLoop]
  | st :: rest, i, acc, j + 1, h => by
      have harith : i + 1 + j = i + (j + 1) := by omega
      have ih := readMatrixLoop_debouncer samples rest (i + 1)
        ⟨acc.inner ||| (st.debouncer.debounce (samples i)).2.inner⟩ j
        (by simpa using h)
      rw [harith] at ih
      simpa [readMatrixLoop] using ih

theorem readMatrixLoop_changes_zero (samples : Nat → RowState) :
    ∀ (ms : List DebounceRowState) (i : Nat) (acc : RowState),
      ((readMatrixLoop samples ms i acc).2).inner = 0 →
      acc.inner = 0 ∧
        ∀ j, j < ms.length →
          (((ms.getD j DebounceRowState.new).debouncer.debounce
              (samples (i + j))).2).inner = 0
  | [], i, acc => by
      intro h
      refine ⟨h, ?_⟩
      intro j hj
      simp at hj
  | st :: rest, i, acc => by
      intro h
      have hrec := readMatrixLoop_changes_zero samples rest (i + 1)
        ⟨acc.inner ||| (st.debouncer.debounce (samples i)).2.inner⟩ h
      obtain ⟨hacc2, hrest⟩ := hrec
      obtain ⟨ha, hch⟩ := lor_eq_zero hacc2
      refine ⟨ha, ?_⟩
      intro j hj
      cases j with
      | zero => simpa using hch
      | succ j =>
          have harith : i + 1 + j = i + (j + 1) := by omega
          have hr := hrest j (by simpa using hj)
          rw [harith] at hr
          simpa using hr

theorem commit_map_getD_prev :
    ∀ (l : List DebounceRowState) (j : Nat),
      ((l.map (fun st => { st with current := st.debouncer.debounced })).getD j
          DebounceRowState.new).previous
        = (l.getD j DebounceRowState.new).previous
  | [], j => rfl
  | st :: rest, 0 => rfl
  | st :: rest, j + 1 => by simpa using commit_map_getD_prev rest j

theorem commit_map_getD_deb :
    ∀ (l : List DebounceRowState) (j : Nat),
      ((l.map (fun st => { st with current := st.debouncer.debounced })).getD j
          DebounceRowState.new).debouncer
        = (l.getD j DebounceRowState.new).debouncer
  | [], j => rfl
  | st :: rest, 0 => rfl
  | st :: rest, j + 1 => by simpa using commit_map_getD_deb rest j

theorem report_commit_map_getD :
    ∀ (l : List DebounceRowState) (j : Nat),
      (((l.map (fun st => { st with previous := st.current })).getD j
          DebounceRowState.new).previous
        = (l.getD j DebounceRowState.new).current)
      ∧ (((l.map (fun st => { st with previous := st.current })).getD j
          DebounceRowState.new).current
        = (l.getD j DebounceRowState.new).current)
      ∧ (((l.map (fun st => { st with previous := st.current })).getD j
          DebounceRowState.new).debouncer
        = (l.getD j DebounceRowState.new).debouncer)
  | [], j => ⟨rfl, rfl, rfl⟩
  | st :: rest, 0 => ⟨rfl, rfl, rfl⟩
  | st :: rest, j + 1 => by simpa using report_commit_map_getD rest j

theorem read_matrix_eq_active (samples : Nat → RowState)
    (ms : List DebounceRowState)
    (h : (anyDebouncedChanges samples ms).is_active = true) :
    read_matrix samples ms
      = (readMatrixLoop samples ms 0 RowState.new).1.map
          (fun st => { st with current := st.debouncer.debounced }) := by
  have h2 : (readMatrixLoop samples ms 0 RowState.new).2.is_active = true := h
  simp [read_matrix, h2]

theorem read_matrix_eq_inactive (samples : Nat → RowState)
    (ms : List DebounceRowState)
    (h : (anyDebouncedChanges samples ms).is_active = false) :
    read_matrix samples ms = (readMatrixLoop samples ms 0 RowState.new).1 := by
  have h2 : (readMatrixLoop samples ms 0 RowState.new).2.is_active = false := h
  simp [read_matrix, h2]

theorem matrix_scan_reports_state (N : Nat) (ms : List DebounceRowState)
    (r : List KeyboardReport) (ms2 : List DebounceRowState)
    (h : matrix_scan_reports N ms = some (r, ms2)) :
    ms2 = ms.map (fun st => { st with previous := st.current }) := by
  rw [matrix_scan_reports_eq] at h
  cases hb : buildReports (activeKeysOf ms)
      ⟨List.replicate N BLANK_REPORT, 0, 0⟩ with
  | none =>
      rw [hb] at h
      exact absurd h (by simp)
  | some a =>
      rw [hb] at h
      simp at h
      exact h.2.symm

/-- The snapshot invariant: every row's current snapshot agrees with its
debouncer's stable value. It holds initially and is preserved by both
pipeline steps, as the C8 theorem shows. -/
def SnapshotInv (ms : List DebounceRowState) : Prop :=
  ∀ j, (ms.getD j DebounceRowState.new).current
    = (ms.getD j DebounceRowState.new).debouncer.debounced

/-- The changes row that row j's debounce call returns during a scan. -/
def rowChanges (samples : Nat → RowState) (ms : List DebounceRowState)
    (j : Nat) : RowState :=
  ((ms.getD j DebounceRowState.new).debouncer.debounce (samples j)).2

theorem getD_replicate_new :
    ∀ (n j : Nat),
      (List.replicate n DebounceRowState.new).getD j DebounceRowState.new
        = DebounceRowState.new
  | 0, _ => rfl
  | _ + 1, 0 => rfl
  | n + 1, j + 1 => by
      simp only [List.replicate, List.getD_cons_succ]
      exact getD_replicate_new n j

/-- C8: frame conditions of the two pipeline steps. The scan step
(read_matrix) never writes any row's previous snapshot; the report step
(matrix_scan_reports) sets every row's previous to its current snapshot
and writes neither current nor the debouncer; the snapshot invariant
(current = debounced) holds initially and is preserved by both steps; and
under that invariant the scan step changes a row's current value only
when that row's debounce call reported a change. -/
theorem snapshot_frame_conditions :
    (∀ (samples : Nat → RowState) (ms : List DebounceRowState) (j : Nat),
      ((read_matrix samples ms).getD j DebounceRowState.new).previous
        = (ms.getD j DebounceRowState.new).previous)
    ∧ (∀ (N : Nat) (ms : List DebounceRowState) r ms2,
        matrix_scan_reports N ms = some (r, ms2) →
        ∀ j, ((ms2.getD j DebounceRowState.new).previous
            = (ms.getD j DebounceRowState.new).current)
          ∧ ((ms2.getD j DebounceRowState.new).current
            = (ms.getD j DebounceRowState.new).current)
          ∧ ((ms2.getD j DebounceRowState.new).debouncer
            = (ms.getD j DebounceRowState.new).debouncer))
    ∧ SnapshotInv (List.replicate ROWS DebounceRowState.new)
    ∧ (∀ (samples : Nat → RowState) (ms : List DebounceRowState),
        SnapshotInv ms → SnapshotInv (read_matrix samples ms))
    ∧ (∀ (N : Nat) (ms : List DebounceRowState) r ms2,
        matrix_scan_reports N ms = some (r, ms2) →
        SnapshotInv ms → SnapshotInv ms2)
    ∧ (∀ (samples : Nat → RowState) (ms : List DebounceRowState) (j : Nat),
        SnapshotInv ms →
        ((read_matrix samples ms).getD j DebounceRowState.new).current
          ≠ (ms.getD j DebounceRowState.new).current →
        (rowChanges samples ms j).is_active = true) := by
  refine ⟨?_, ?_, ?_, ?_, ?_, ?_⟩
  · intro samples ms j
    cases hact : (anyDebouncedChanges samples ms).is_active with
    | true =>
        rw [read_matrix_eq_active samples ms hact, commit_map_getD_prev]
        exact (readMatrixLoop_getD samples ms 0 RowState.new j).1
    | false =>
        rw [read_matrix_eq_inactive samples ms hact]
        exact (readMatrixLoop_getD samples ms 0 RowState.new j).1
  · intro N ms r ms2 h j
    rw [matrix_scan_reports_state N ms r ms2 h]
    exact report_commit_map_getD ms j
  · intro j
    rw [getD_replicate_new ROWS j]
    rfl
  · intro samples ms hInv j
    cases hact : (anyDebouncedChanges samples ms).is_active with
    | true =>
        rw [read_matrix_eq_active samples ms hact]
        exact commit_map_getD _ j
    | false =>
        rw [read_matrix_eq_inactive samples ms hact]
        rw [(readMatrixLoop_getD samples ms 0 RowState.new j).2, hInv j]
        rcases Nat.lt_or_ge j ms.length with hj | hj
        · rw [readMatrixLoop_debouncer samples ms 0 RowState.new j hj]
          have hz : (anyDebouncedChanges samples ms).inner = 0 := by
            have h2 := hact
            simp [RowState.is_active] at h2
            exact h2
          have hchz := (readMatrixLoop_changes_zero samples ms 0
            RowState.new hz).2 j hj
          rw [Debounce.debounce_debounced]
          have hche : ((ms.getD j DebounceRowState.new).debouncer.debounce
              (samples (0 + j))).2 = ⟨0⟩ := by
            cases hc : ((ms.getD j DebounceRowState.new).debouncer.debounce
                (samples (0 + j))).2 with
            | mk x =>
                rw [hc] at hchz
                simp at hchz
                rw [hchz]
          rw [hche, RowState.lxor_zero]
        · have hlen := readMatrixLoop_length samples ms 0 RowState.new
          rw [List.getD_eq_default _ _ hj,
            List.getD_eq_default _ _ (by omega :
              ((readMatrixLoop samples ms 0 RowState.new).1).length ≤ j)]
  · intro N ms r ms2 h hInv j
    have hm := report_commit_map_getD ms j
    rw [matrix_scan_reports_state N ms r ms2 h] at *
    rw [hm.2.1, hm.2.2, hInv j]
  · intro samples ms j hInv hne
    by_contra hrc
    have hrc0 : (rowChanges samples ms j).inner = 0 := by
      cases hb : (rowChanges samples ms j).is_active
      · have := hb
        simp [RowState.is_active] at this
        exact this
      · exact absurd hb hrc
    apply hne
    cases hact : (anyDebouncedChanges samples ms).is_active with
    | false =>
        rw [read_matrix_eq_inactive samples ms hact]
        exact (readMatrixLoop_getD samples ms 0 RowState.new j).2
    | true =>
        rw [read_matrix_eq_active samples ms hact]
        rcases Nat.lt_or_ge j ms.length with hj | hj
        · rw [commit_map_getD _ j, commit_map_getD_deb,
            readMatrixLoop_debouncer samples ms 0 RowState.new j hj,
            Debounce.debounce_debounced, Nat.zero_add]
          have hche : ((ms.getD j DebounceRowState.new).debouncer.debounce
              (samples j)).2 = ⟨0⟩ := by
            cases hc : ((ms.getD j DebounceRowState.new).debouncer.debounce
                (samples j)).2 with
            | mk x =>
                have h0 := hrc0
                rw [rowChanges, hc] at h0
                simp at h0
                rw [h0]
          rw [hche, RowState.lxor_zero, ← hInv j]
        · have hlen := readMatrixLoop_length samples ms 0 RowState.new
          rw [List.getD_eq_default
              (((readMatrixLoop samples ms 0 RowState.new).1).map
                (fun st => { st with current := st.debouncer.debounced }))
              DebounceRowState.new
              (by rw [List.length_map]; omega),
            List.getD_eq_default ms DebounceRowState.new hj]

/-- Witness for C8: the empty scan state run through matrix_scan_reports,
and a state with a saturated row-0 debouncer run through read_matrix with
an all-ones sample, which flips row 0's current and reports its change. -/
theorem snapshot_frame_conditions_witness :
    (([DebounceRowState.new, DebounceRowState.new, DebounceRowState.new,
        DebounceRowState.new].getD 0 DebounceRowState.new).previous
      = ([DebounceRowState.new, DebounceRowState.new, DebounceRowState.new,
          DebounceRowState.new].getD 0 DebounceRowState.new).current)
    ∧ SnapshotInv (read_matrix (fun _ => ⟨1⟩)
        [⟨⟨0⟩, ⟨0⟩, ⟨⟨1⟩, ⟨1⟩, ⟨0⟩⟩⟩, DebounceRowState.new,
         DebounceRowState.new, DebounceRowState.new])
    ∧ SnapshotInv [DebounceRowState.new, DebounceRowState.new,
        DebounceRowState.new, DebounceRowState.new]
    ∧ (rowChanges (fun _ => ⟨1⟩)
        [⟨⟨0⟩, ⟨0⟩, ⟨⟨1⟩, ⟨1⟩, ⟨0⟩⟩⟩, DebounceRowState.new,
         DebounceRowState.new, DebounceRowState.new] 0).is_active = true := by
  have h := snapshot_frame_conditions
  have hA : matrix_scan_reports 8
      [DebounceRowState.new, DebounceRowState.new, DebounceRowState.new,
       DebounceRowState.new]
      = some (List.replicate 8 BLANK_REPORT,
          [DebounceRowState.new, DebounceRowState.new, DebounceRowState.new,
           DebounceRowState.new]) := by decide
  have hInvA : SnapshotInv [DebounceRowState.new, DebounceRowState.new,
      DebounceRowState.new, DebounceRowState.new] := by
    intro j
    rcases j with _ | _ | _ | _ | j <;> rfl
  have hInvB : SnapshotInv [⟨⟨0⟩, ⟨0⟩, ⟨⟨1⟩, ⟨1⟩, ⟨0⟩⟩⟩, DebounceRowState.new,
      DebounceRowState.new, DebounceRowState.new] := by
    intro j
    rcases j with _ | _ | _ | _ | j <;> rfl
  refine ⟨(h.2.1 8 _ _ _ hA 0).1, ?_, ?_, ?_⟩
  · exact h.2.2.2.1 (fun _ => ⟨1⟩) _ hInvB
  · exact h.2.2.2.2.1 8 _ _ _ hA hInvA
  · exact h.2.2.2.2.2 (fun _ => ⟨1⟩) _ 0 hInvB (by decide)

/-- Events observable at the USB transport boundary during dispatch. -/
inductive UsbEvent
  | pushInput (r : KeyboardReport)
  | devicePoll
  | pullRawOutput
deriving DecidableEq, Repr

/-- Trace of UsbContext::poll: push the blank report, poll the device
and, when the poll reports data, pull one raw output byte. The Bool is
the result of usb_device.poll. -/
def pollTrace (pollResult : Bool) : List UsbEvent :=
  UsbEvent.pushInput BLANK_REPORT ::
    UsbEvent.devicePoll ::
      (if pollResult then [UsbEvent.pullRawOutput] else [])

/-- Trace of one iteration of the UsbContext::scan_matrix dispatch loop:
push the report, poll the device (pulling raw output if it reports data),
then run UsbContext::poll. o1 and o2 are the two device-poll results. -/
def reportDispatchTrace (r : KeyboardReport) (o1 o2 : Bool) : List UsbEvent :=
  UsbEvent.pushInput r ::
    UsbEvent.devicePoll ::
      ((if o1 then [UsbEvent.pullRawOutput] else []) ++ pollTrace o2)

/-- Trace of the whole dispatch loop over the report array, threading the
stream of device-poll results (two polls per report). -/
def scanMatrixTraceAux :
    List KeyboardReport → (Nat → Bool) → Nat → List UsbEvent
  | [], _, _ => []
  | r :: rs, oracle, k =>
      reportDispatchTrace r (oracle k) (oracle (k + 1))
        ++ scanMatrixTraceAux rs oracle (k + 2)

/-- Transport trace of UsbContext::scan_matrix for a given report array
and device-poll oracle. -/
def scan_matrix_trace (reports : List KeyboardReport) (oracle : Nat → Bool) :
    List UsbEvent :=
  scanMatrixTraceAux reports oracle 0

/-- Number of blank-report pushes in a transport trace. -/
def countBlankPush (tr : List UsbEvent) : Nat :=
  tr.countP (fun e => decide (e = UsbEvent.pushInput BLANK_REPORT))

/-- C5 counterexample: dispatching the report array produced by one
non-blank scan (one live report followed by seven blank slots) pushes the
blank report 15 times in a single dispatch cycle, not exactly once: one
push from UsbContext::poll after every one of the 8 slots, plus the seven
blank report slots themselves. -/
theorem blank_report_pushed_fifteen_times :
    countBlankPush
      (scan_matrix_trace
        (⟨0, 0, 0, [20, 26, 8, 21, 23, 28]⟩ :: List.replicate 7 BLANK_REPORT)
        (fun _ => false)) = 15 := by
  decide

theorem countBlankPush_append (t1 t2 : List UsbEvent) :
    countBlankPush (t1 ++ t2) = countBlankPush t1 + countBlankPush t2 := by
  simp [countBlankPush, List.countP_append]

theorem countBlankPush_reportDispatchTrace (r : KeyboardReport) (o1 o2 : Bool) :
    countBlankPush (reportDispatchTrace r o1 o2)
      = (if r = BLANK_REPORT then 1 else 0) + 1 := by
  cases o1 <;> cases o2 <;>
    by_cases hr : r = BLANK_REPORT <;>
      simp [reportDispatchTrace, pollTrace, countBlankPush, List.countP_cons, hr]

theorem countBlankPush_scanMatrixTraceAux (oracle : Nat → Bool) :
    ∀ (reports : List KeyboardReport) (k : Nat),
      countBlankPush (scanMatrixTraceAux reports oracle k)
        = reports.countP (fun r => decide (r = BLANK_REPORT)) + reports.length
  | [], _ => rfl
  | r :: rs, k => by
      rw [scanMatrixTraceAux, countBlankPush_append,
        countBlankPush_reportDispatchTrace,
        countBlankPush_scanMatrixTraceAux oracle rs (k + 2)]
      simp [List.countP_cons]
      by_cases hr : r = BLANK_REPORT <;> simp [hr] <;> omega

/-- C5 (amended): UsbContext::scan_matrix runs UsbContext::poll, which
pushes one blank report and polls, after every one of the report slots it
dispatches, regardless of whether dispatch is idle; so a dispatch cycle
pushes the blank report once per slot plus once per slot that already
holds a blank report, never exactly once. -/
theorem blank_push_per_slot (reports : List KeyboardReport)
    (oracle : Nat → Bool) :
    countBlankPush (scan_matrix_trace reports oracle)
      = reports.countP (fun r => decide (r = BLANK_REPORT)) + reports.length :=
  countBlankPush_scanMatrixTraceAux oracle reports 0

/-- Source RawSpinLock::try_lock_shared in lock.rs: it merely loads the
atomic bit and returns it, storing nothing, so it reports success exactly
when the lock bit is already set. Result is (new state, returned Bool). -/
def try_lock_shared (s : Bool) : Bool × Bool := (s, s)

/-- Source RawSpinLock::try_lock_exclusive: load the bit; if it is clear,
store true and report success, otherwise report failure. -/
def try_lock_exclusive (s : Bool) : Bool × Bool :=
  if !s then (true, true) else (s, false)

/-- Source RawSpinLock::unlock_shared: store false. -/
def unlock_shared (_ : Bool) : Bool := false

/-- Source RawSpinLock::unlock_exclusive: store false. -/
def unlock_exclusive (_ : Bool) : Bool := false

/-- Source RawSpinLock::lock_shared: spin while try_lock_shared returns
false. Modelled with fuel; none means the loop is still spinning when the
fuel runs out (with a single sequential actor it spins forever). -/
def lock_shared_fuel : Nat → Bool → Option Bool
  | 0, _ => none
  | n + 1, s =>
      let r := try_lock_shared s
      if r.2 then some r.1 else lock_shared_fuel n r.1

/-- Source RawSpinLock::lock_exclusive: the body is identical to
lock_shared, spinning on try_lock_shared. -/
def lock_exclusive_fuel : Nat → Bool → Option Bool
  | 0, _ => none
  | n + 1, s =>
      let r := try_lock_shared s
      if r.2 then some r.1 else lock_exclusive_fuel n r.1

/-- C10: the lock.rs acquire operations are inverted with respect to the
lock-bit protocol the claim states. try_lock_shared reports success from
the set state (returning true while the lock is already held) and stores
nothing; from the clear state it fails; lock_exclusive and lock_shared
spin forever on a free lock and return, without storing, exactly when
some other owner already holds it. Only try_lock_exclusive behaves as
claimed: success only from the clear state, setting the bit so a further
try_lock_exclusive fails until a release stores false. -/
theorem raw_spinlock_acquire_inverted :
    ((try_lock_shared true).2 = true ∧ (try_lock_shared true).1 = true)
    ∧ (try_lock_shared false).2 = false
    ∧ (∀ n, lock_exclusive_fuel n false = none)
    ∧ (∀ n, lock_shared_fuel n false = none)
    ∧ (∀ n, lock_exclusive_fuel (n + 1) true = some true)
    ∧ ((try_lock_exclusive false).2 = true
        ∧ (try_lock_exclusive false).1 = true
        ∧ (try_lock_exclusive true).2 = false
        ∧ (try_lock_exclusive (unlock_exclusive true)).2 = true) := by
  refine ⟨⟨rfl, rfl⟩, rfl, ?_, ?_, ?_, ⟨rfl, rfl, rfl, rfl⟩⟩
  · intro n
    induction n with
    | zero => rfl
    | succ n ih => simpa [lock_exclusive_fuel, try_lock_shared] using ih
  · intro n
    induction n with
    | zero => rfl
    | succ n ih => simpa [lock_shared_fuel, try_lock_shared] using ih
  · intro n
    rfl
